import Mathlib

/-!
Verification development for the funding-rate monitoring bot's market-data
aggregation core (`bot.py`).

Exchange symbols (both raw exchange spellings and canonical keys) are
modelled as lists of characters; funding rates, volumes, prices and clock
values are rationals; epoch-millisecond timestamps are integers.  Each
collector's network interaction is modelled by an explicit argument
describing the response the network would deliver (`netError` standing for
any raised network or parse exception), so a collector is a pure function
of its inputs.  Python dictionaries are modelled as insertion-ordered
association lists with in-place update, and Python sets of symbols as
duplicate-free lists.
-/

/-- Exchange symbols: strings modelled as character lists. -/
abbrev Str : Type := List Char

/-- The canonical-key tail `/USDT:USDT` appended to every base asset. -/
def canonTail : Str := "/USDT:USDT".toList

/-- The quote tail `USDT` tested by the Python code's `endswith("USDT")`. -/
def usdtTail : Str := "USDT".toList

/-- The Bitget contract tail `_UMCBL`. -/
def umcblTail : Str := "_UMCBL".toList

/-- The OKX instrument tail `-USDT-SWAP`. -/
def usdtSwapTail : Str := "-USDT-SWAP".toList

/-- Canonical SymbolKey `BASE/USDT:USDT` built from a base asset,
mirroring the f-strings of the form `base + "/USDT:USDT"` in `bot.py`. -/
def canonKey (base : Str) : Str := base ++ canonTail

/-- Python `s.endswith(t)`. -/
def endsWith (s t : Str) : Bool := t.isSuffixOf s

/-- Python `s[:-4]` (all characters but the last four). -/
def dropLast4 (s : Str) : Str := s.take (s.length - 4)

/-- Python `s.split(c)[0]`: the longest prefix free of the separator. -/
def splitHead (c : Char) (s : Str) : Str := s.takeWhile (· != c)

/-- Symbol admission and normalization performed by
`get_bybit_funding_rates`: accept raw symbols ending in `USDT`, strip that
tail and build the canonical key. -/
def bybitNormalize (symbol : Str) : Option Str :=
  if endsWith symbol usdtTail then some (canonKey (dropLast4 symbol)) else none

/-- Symbol admission and normalization performed by
`get_bitget_funding_rates`: accept raw symbols ending in `_UMCBL` whose
part before the first underscore ends in `USDT`. -/
def bitgetNormalize (raw_symbol : Str) : Option Str :=
  if endsWith raw_symbol umcblTail then
    let pair := splitHead '_' raw_symbol
    if endsWith pair usdtTail then some (canonKey (dropLast4 pair)) else none
  else none

/-- Symbol admission and normalization of the OKX collectors: instrument
ids ending in `-USDT-SWAP` are accepted and the part before the first
dash is the base asset. -/
def okxNormalize (instId : Str) : Option Str :=
  if endsWith instId usdtSwapTail then some (canonKey (splitHead '-' instId)) else none

/-- One instrument's current state, as stored in every collector's
snapshot dictionaries in `bot.py`. -/
structure FundingEntry where
  symbol : Str
  rate : ℚ
  volume : ℚ
  price : ℚ
  next_funding : ℤ
deriving DecidableEq

/-- A per-exchange snapshot: a Python dict from canonical symbol to entry,
modelled as an insertion-ordered association list. -/
abbrev Snapshot : Type := List (Str × FundingEntry)

/-- Python dict assignment `d[k] = v`: replace the value in place when the
key is present, append a binding otherwise. -/
def insertAL {β : Type} (s : List (Str × β)) (k : Str) (v : β) : List (Str × β) :=
  match s with
  | [] => [(k, v)]
  | p :: rest => if p.1 = k then (k, v) :: rest else p :: insertAL rest k v

/-- The keys of an association list, in iteration order. -/
def keys {β : Type} : List (Str × β) → List Str
  | [] => []
  | p :: rest => p.1 :: keys rest

/-- Outcome of one HTTP request: a raised network/parse exception, or a
delivered response with its status code and decoded body. -/
inductive HttpResult (α : Type) where
  | netError
  | ok (status : Nat) (body : α)

/-- One row of Bybit's `/v5/market/tickers?category=linear` response. -/
structure BybitTicker where
  symbol : Str
  fundingRate : ℚ
  turnover24h : ℚ
  lastPrice : ℚ
  nextFundingTime : ℤ

/-- Decoded body of Bybit's linear-tickers response. -/
structure BybitTickersResp where
  retCode : ℤ
  list : List BybitTicker

/-- Loop body of `get_bybit_funding_rates`: skip symbols not ending in
`USDT`, apply the spot intersection filter when requested, store the
entry with rate scaled to a percentage. -/
def bybitStep (use_spot_filter : Bool) (spot_symbols : List Str)
    (acc : Snapshot) (item : BybitTicker) : Snapshot :=
  match bybitNormalize item.symbol with
  | none => acc
  | some ccxt_symbol =>
    if use_spot_filter && !decide (ccxt_symbol ∈ spot_symbols) then acc
    else insertAL acc ccxt_symbol
      ⟨ccxt_symbol, item.fundingRate * 100, item.turnover24h, item.lastPrice,
        item.nextFundingTime⟩

/-- The Bybit REST funding fetcher `get_bybit_funding_rates`.  Any raised
exception and any non-200 status yield the empty snapshot, as does a
non-zero `retCode` in the body. -/
def get_bybit_funding_rates (use_spot_filter : Bool) (spot_symbols : List Str)
    (resp : HttpResult BybitTickersResp) : Snapshot :=
  match resp with
  | .netError => []
  | .ok status body =>
    if status = 200 then
      if body.retCode = 0 then body.list.foldl (bybitStep use_spot_filter spot_symbols) []
      else []
    else []

/-- One row of Bitget's `/api/mix/v1/market/tickers?productType=umcbl`
response (its REST ticker has no next-funding field). -/
structure BitgetTicker where
  symbol : Str
  fundingRate : ℚ
  quoteVolume : ℚ
  last : ℚ

/-- Decoded body of Bitget's mix-tickers response. -/
structure BitgetTickersResp where
  code : Str
  data : List BitgetTicker

/-- Loop body of `get_bitget_funding_rates`: keep `_UMCBL` contracts whose
pair ends in `USDT`, apply the spot filter, and record `next_funding = 0`
because Bitget's ticker lacks the field. -/
def bitgetStep (use_spot_filter : Bool) (spot_symbols : List Str)
    (acc : Snapshot) (item : BitgetTicker) : Snapshot :=
  match bitgetNormalize item.symbol with
  | none => acc
  | some ccxt_symbol =>
    if use_spot_filter && !decide (ccxt_symbol ∈ spot_symbols) then acc
    else insertAL acc ccxt_symbol
      ⟨ccxt_symbol, item.fundingRate * 100, item.quoteVolume, item.last, 0⟩

/-- The Bitget REST funding fetcher `get_bitget_funding_rates`. -/
def get_bitget_funding_rates (use_spot_filter : Bool) (spot_symbols : List Str)
    (resp : HttpResult BitgetTickersResp) : Snapshot :=
  match resp with
  | .netError => []
  | .ok status body =>
    if status = 200 then
      if body.code = "00000".toList then
        body.data.foldl (bitgetStep use_spot_filter spot_symbols) []
      else []
    else []

/-- State of one exchange's spot-symbol cache: the cached set
(`SPOT_SYMBOL_CACHE[exchange]`) and the timestamp of the last stored
fetch (`SPOT_SYMBOL_LAST_FETCH[exchange]`). -/
structure CacheState where
  cache : List Str
  lastFetch : ℚ
deriving DecidableEq

/-- Result of one spot-symbol `get` call: the returned set, the cache
state it leaves behind, and whether a network request was issued. -/
structure SpotGetResult where
  value : List Str
  state : CacheState
  network : Bool
deriving DecidableEq

/-- The cache TTL `SPOT_SYMBOL_TTL = 60 * 60` seconds. -/
def SPOT_SYMBOL_TTL : ℚ := 60 * 60

/-- Python `set.add` on a set modelled as a duplicate-free list. -/
def addSet (l : List Str) (s : Str) : List Str := if s ∈ l then l else l ++ [s]

/-- One instrument row of Bybit's spot `instruments-info` listing. -/
structure BybitSpotInstrument where
  quoteCoin : Str
  baseCoin : Str

/-- Outcome of the Bybit spot-listing request: a raised network/parse
exception, or a decoded body with its `retCode` and instrument list. -/
inductive BybitSpotFetch where
  | netError
  | ok (retCode : ℤ) (instruments : List BybitSpotInstrument)

/-- The symbol set `get_bybit_spot_symbols` builds from a decoded body:
USDT-quoted instruments, canonicalized; empty when `retCode` is not 0. -/
def bybitSpotSymbols (retCode : ℤ) (instruments : List BybitSpotInstrument) : List Str :=
  if retCode = 0 then
    instruments.foldl
      (fun s inst => if inst.quoteCoin = usdtTail then addSet s (canonKey inst.baseCoin) else s)
      []
  else []

/-- The cached spot-symbol getter `get_bybit_spot_symbols`: a non-empty
cached set younger than the TTL is returned without network access;
otherwise one fetch is attempted, a raised exception returns the previous
cache unchanged, and a decoded body (whatever its `retCode`) has its
parsed symbol set stored together with the current time. -/
def get_bybit_spot_symbols (st : CacheState) (now : ℚ) (fetch : BybitSpotFetch) :
    SpotGetResult :=
  if st.cache ≠ [] ∧ now - st.lastFetch < SPOT_SYMBOL_TTL then
    ⟨st.cache, st, false⟩
  else
    match fetch with
    | .netError => ⟨st.cache, st, true⟩
    | .ok retCode instruments =>
      let symbols := bybitSpotSymbols retCode instruments
      ⟨symbols, ⟨symbols, now⟩, true⟩

/-- One symbol row of Binance's spot `exchangeInfo` listing. -/
structure BinanceSpotSymbolInfo where
  quoteAsset : Str
  status : Str
  baseAsset : Str

/-- Outcome of the Binance spot-listing request. -/
inductive BinanceSpotFetch where
  | netError
  | ok (symbols : List BinanceSpotSymbolInfo)

/-- The symbol set `get_binance_spot_symbols` builds from a decoded body:
USDT-quoted symbols in `TRADING` status, canonicalized. -/
def binanceSpotSymbols (infos : List BinanceSpotSymbolInfo) : List Str :=
  infos.foldl
    (fun s i =>
      if i.quoteAsset = usdtTail ∧ i.status = "TRADING".toList then
        addSet s (canonKey i.baseAsset)
      else s)
    []

/-- The cached spot-symbol getter `get_binance_spot_symbols`. -/
def get_binance_spot_symbols (st : CacheState) (now : ℚ) (fetch : BinanceSpotFetch) :
    SpotGetResult :=
  if st.cache ≠ [] ∧ now - st.lastFetch < SPOT_SYMBOL_TTL then
    ⟨st.cache, st, false⟩
  else
    match fetch with
    | .netError => ⟨st.cache, st, true⟩
    | .ok infos =>
      let symbols := binanceSpotSymbols infos
      ⟨symbols, ⟨symbols, now⟩, true⟩

/-- One symbol row of Bitget's spot `public/symbols` listing. -/
structure BitgetSpotSymbolInfo where
  quoteCoin : Str
  status : Str
  baseCoin : Str

/-- Outcome of the Bitget spot-listing request. -/
inductive BitgetSpotFetch where
  | netError
  | ok (code : Str) (data : List BitgetSpotSymbolInfo)

/-- The symbol set `get_bitget_spot_symbols` builds from a decoded body:
USDT-quoted `online` symbols, canonicalized; empty when `code` is not
`"00000"`. -/
def bitgetSpotSymbols (code : Str) (data : List BitgetSpotSymbolInfo) : List Str :=
  if code = "00000".toList then
    data.foldl
      (fun s i =>
        if i.quoteCoin = usdtTail ∧ i.status = "online".toList then
          addSet s (canonKey i.baseCoin)
        else s)
      []
  else []

/-- The cached spot-symbol getter `get_bitget_spot_symbols`. -/
def get_bitget_spot_symbols (st : CacheState) (now : ℚ) (fetch : BitgetSpotFetch) :
    SpotGetResult :=
  if st.cache ≠ [] ∧ now - st.lastFetch < SPOT_SYMBOL_TTL then
    ⟨st.cache, st, false⟩
  else
    match fetch with
    | .netError => ⟨st.cache, st, true⟩
    | .ok code data =>
      let symbols := bitgetSpotSymbols code data
      ⟨symbols, ⟨symbols, now⟩, true⟩

/-- Per-symbol mark-price data kept by `BinanceWebSocketMonitor`
(`self._mark_data` values). -/
structure BinanceMark where
  rate : ℚ
  price : ℚ
  next_funding : ℤ
deriving DecidableEq

/-- In-memory state of `BinanceWebSocketMonitor`: `_mark_data` and
`_ticker_volume`. -/
structure BinanceState where
  mark_data : List (Str × BinanceMark)
  ticker_volume : List (Str × ℚ)
deriving DecidableEq

/-- One item of a Binance `!markPrice@arr` message: symbol `s`, funding
fraction `r`, mark price `p`, next funding time `T`. -/
structure BinanceMarkItem where
  s : Str
  r : ℚ
  p : ℚ
  T : ℤ

/-- One item of a Binance `!ticker@arr` message: symbol `s` and 24h quote
volume `q`. -/
structure BinanceTickerItem where
  s : Str
  q : ℚ

/-- One parsed inbound Binance stream message; `other` stands for any
message that matches neither stream or fails to parse (logged and
skipped by the monitor). -/
inductive BinanceWsMsg where
  | markPrice (data : List BinanceMarkItem)
  | ticker (data : List BinanceTickerItem)
  | other

/-- Per-item update of `_mark_data` in the monitor's receive loop: skip
empty symbols and symbols not ending in `USDT`, otherwise store the
percentage rate, price and next funding time under the canonical key. -/
def binanceMarkStep (md : List (Str × BinanceMark)) (item : BinanceMarkItem) :
    List (Str × BinanceMark) :=
  if item.s.isEmpty || !endsWith item.s usdtTail then md
  else insertAL md (canonKey (dropLast4 item.s)) ⟨item.r * 100, item.p, item.T⟩

/-- Per-item update of `_ticker_volume` in the monitor's receive loop. -/
def binanceTickerStep (tv : List (Str × ℚ)) (item : BinanceTickerItem) :
    List (Str × ℚ) :=
  if item.s.isEmpty || !endsWith item.s usdtTail then tv
  else insertAL tv (canonKey (dropLast4 item.s)) item.q

/-- Effect of one inbound message on the Binance monitor's state. -/
def binanceApplyMsg (st : BinanceState) : BinanceWsMsg → BinanceState
  | .markPrice data => { st with mark_data := data.foldl binanceMarkStep st.mark_data }
  | .ticker data => { st with ticker_volume := data.foldl binanceTickerStep st.ticker_volume }
  | .other => st

/-- The monitor's initial state (empty dicts from `__init__`). -/
def binanceInitState : BinanceState := ⟨[], []⟩

/-- State of the Binance monitor after receiving a sequence of messages
from process start. -/
def binanceRunMsgs (msgs : List BinanceWsMsg) : BinanceState :=
  msgs.foldl binanceApplyMsg binanceInitState

/-- Loop body of `BinanceWebSocketMonitor.get_snapshot`: spot-filter each
`_mark_data` entry and materialize it, defaulting a missing ticker volume
to 0. -/
def binanceSnapStep (st : BinanceState) (use_spot_filter : Bool) (spot_symbols : List Str)
    (snap : Snapshot) (p : Str × BinanceMark) : Snapshot :=
  if use_spot_filter && !decide (p.1 ∈ spot_symbols) then snap
  else insertAL snap p.1
    ⟨p.1, p.2.rate, (st.ticker_volume.lookup p.1).getD 0, p.2.price, p.2.next_funding⟩

/-- The snapshot call `BinanceWebSocketMonitor.get_snapshot`.  The first
component is the number of seconds the call suspends before building the
snapshot: this monitor has no cold-start wait, so it is always 0. -/
def binance_get_snapshot (st : BinanceState) (use_spot_filter : Bool)
    (spot_symbols : List Str) : Nat × Snapshot :=
  (0, st.mark_data.foldl (binanceSnapStep st use_spot_filter spot_symbols) [])

/-- Per-symbol funding data kept by `OKXWebSocketMonitor`
(`self._funding_data` values). -/
structure OKXFunding where
  rate : ℚ
  next_funding : ℤ
deriving DecidableEq

/-- Per-symbol ticker data kept by `OKXWebSocketMonitor`
(`self._ticker_data` values). -/
structure OKXTicker where
  price : ℚ
  volume : ℚ
deriving DecidableEq

/-- In-memory state of `OKXWebSocketMonitor`. -/
structure OKXState where
  funding_data : List (Str × OKXFunding)
  ticker_data : List (Str × OKXTicker)
deriving DecidableEq

/-- One item of an OKX `funding-rate` channel message. -/
structure OKXFundingItem where
  instId : Str
  fundingRate : ℚ
  nextFundingTime : ℤ

/-- One item of an OKX `tickers` channel message. -/
structure OKXTickerItem where
  instId : Str
  last : ℚ
  volCcy24h : ℚ

/-- One parsed inbound OKX message; `ping` is answered with a pong and
`other` stands for unrecognized or unparseable messages (skipped). -/
inductive OKXWsMsg where
  | fundingRate (data : List OKXFundingItem)
  | tickers (data : List OKXTickerItem)
  | ping
  | other

/-- Per-item update of `_funding_data`: the base asset is everything
before the first dash of the instrument id. -/
def okxFundingStep (fd : List (Str × OKXFunding)) (item : OKXFundingItem) :
    List (Str × OKXFunding) :=
  insertAL fd (canonKey (splitHead '-' item.instId)) ⟨item.fundingRate * 100, item.nextFundingTime⟩

/-- Per-item update of `_ticker_data`. -/
def okxTickerStep (td : List (Str × OKXTicker)) (item : OKXTickerItem) :
    List (Str × OKXTicker) :=
  insertAL td (canonKey (splitHead '-' item.instId)) ⟨item.last, item.volCcy24h⟩

/-- Effect of one inbound message on the OKX monitor's state. -/
def okxApplyMsg (st : OKXState) : OKXWsMsg → OKXState
  | .fundingRate data => { st with funding_data := data.foldl okxFundingStep st.funding_data }
  | .tickers data => { st with ticker_data := data.foldl okxTickerStep st.ticker_data }
  | .ping => st
  | .other => st

/-- The OKX monitor's initial state. -/
def okxInitState : OKXState := ⟨[], []⟩

/-- State of the OKX monitor after receiving a sequence of messages from
process start. -/
def okxRunMsgs (msgs : List OKXWsMsg) : OKXState :=
  msgs.foldl okxApplyMsg okxInitState

/-- Loop body of `OKXWebSocketMonitor.get_snapshot`: spot-filter each
`_funding_data` entry and materialize it, defaulting price and volume to
0 when no ticker has been seen for the symbol. -/
def okxSnapStep (st : OKXState) (use_spot_filter : Bool) (spot_symbols : List Str)
    (snap : Snapshot) (p : Str × OKXFunding) : Snapshot :=
  if use_spot_filter && !decide (p.1 ∈ spot_symbols) then snap
  else
    let ticker := st.ticker_data.lookup p.1
    insertAL snap p.1
      ⟨p.1, p.2.rate, (ticker.map OKXTicker.volume).getD 0,
        (ticker.map OKXTicker.price).getD 0, p.2.next_funding⟩

/-- The snapshot call `OKXWebSocketMonitor.get_snapshot`.  The first
component is the number of seconds the call suspends before building the
snapshot: 3 when no funding data has arrived yet (`asyncio.sleep(3)`),
0 otherwise. -/
def okx_get_snapshot (st : OKXState) (use_spot_filter : Bool)
    (spot_symbols : List Str) : Nat × Snapshot :=
  (if st.funding_data.isEmpty then 3 else 0,
    st.funding_data.foldl (okxSnapStep st use_spot_filter spot_symbols) [])

/-- The exchange identifier `bybit`. -/
def exchBybit : Str := "bybit".toList

/-- The exchange identifier `binance`. -/
def exchBinance : Str := "binance".toList

/-- The exchange identifier `bitget`. -/
def exchBitget : Str := "bitget".toList

/-- The exchange identifier `okx`. -/
def exchOkx : Str := "okx".toList

/-- The aggregator `get_all_funding_rates`: one task per requested
exchange in the fixed order bybit, binance, bitget, okx, each task's
snapshot stored under the exchange identifier.  The per-exchange
snapshots are taken as arguments, standing for the values the four
(independently resilient) collector calls produced. -/
def get_all_funding_rates (exchanges : List Str)
    (bybitSnap binanceSnap bitgetSnap okxSnap : Snapshot) : List (Str × Snapshot) :=
  (if exchBybit ∈ exchanges then [(exchBybit, bybitSnap)] else []) ++
  (if exchBinance ∈ exchanges then [(exchBinance, binanceSnap)] else []) ++
  (if exchBitget ∈ exchanges then [(exchBitget, bitgetSnap)] else []) ++
  (if exchOkx ∈ exchanges then [(exchOkx, okxSnap)] else [])

/-- The sign filter of `get_top_funding_rates`: keep the entries whose
rate-sign test `rate > 0` equals `positive`, as symbol-rate pairs, in
snapshot iteration order. -/
def topFiltered (funding_rates : Snapshot) (positive : Bool) : List (Str × ℚ) :=
  funding_rates.filterMap fun p =>
    if decide (0 < p.2.rate) = positive then some (p.1, p.2.rate) else none

/-- The ordering used by `get_top_funding_rates`: sorted by absolute rate
descending (`key=lambda x: abs(x[1]), reverse=True`). -/
def rateAbsGE (x y : Str × ℚ) : Prop := |y.2| ≤ |x.2|

instance : DecidableRel rateAbsGE := fun x y => inferInstanceAs (Decidable (|y.2| ≤ |x.2|))

instance : IsTotal (Str × ℚ) rateAbsGE := ⟨fun a b => le_total |b.2| |a.2|⟩

instance : IsTrans (Str × ℚ) rateAbsGE := ⟨fun _ _ _ hab hbc => le_trans hbc hab⟩

/-- The stable descending sort of the filtered pairs, modelling Python's
stable `sorted(..., key=lambda x: abs(x[1]), reverse=True)`. -/
def topSorted (funding_rates : Snapshot) (positive : Bool) : List (Str × ℚ) :=
  List.insertionSort rateAbsGE (topFiltered funding_rates positive)

/-- The ranking function `get_top_funding_rates`: filter by sign, sort by
absolute rate descending (stable), return the first five. -/
def get_top_funding_rates (funding_rates : Snapshot) (positive : Bool) : List (Str × ℚ) :=
  (topSorted funding_rates positive).take 5

/-- A rendered next-funding countdown: whole hours and minutes, or the
explicit `unknown` text used when the next-funding time is absent. -/
inductive Countdown where
  | time (hours minutes : ℤ)
  | unknown
deriving DecidableEq

/-- Countdown computation of `check_threshold_alerts`: a zero (absent)
next-funding time is falsy in `data.get('next_funding')` and reports
`unknown`; otherwise the remaining seconds `max(0, next_funding/1000 -
now)` are split into whole hours and minutes. -/
def mkCountdown (next_funding : ℤ) (now : ℚ) : Countdown :=
  if next_funding ≠ 0 then
    let remaining : ℚ := max 0 ((next_funding : ℚ) / 1000 - now)
    let hours : ℤ := ⌊remaining / 3600⌋
    let minutes : ℤ := ⌊(remaining - 3600 * (hours : ℚ)) / 60⌋
    Countdown.time hours minutes
  else Countdown.unknown

/-- One alert record built by `check_threshold_alerts` (the exchange name
field, taken from the enclosing per-exchange loop, is omitted: we model
the per-snapshot selection). -/
structure AlertData where
  symbol : Str
  coin_name : Str
  rate : ℚ
  price : ℚ
  volume : ℚ
  countdown : Countdown
deriving DecidableEq

/-- The alert record `check_threshold_alerts` builds for one entry. -/
def mkAlert (now : ℚ) (sym : Str) (d : FundingEntry) : AlertData :=
  { symbol := sym
    coin_name := splitHead '/' sym
    rate := d.rate
    price := d.price
    volume := d.volume
    countdown := mkCountdown d.next_funding now }

/-- The per-snapshot selection loop of `check_threshold_alerts`: append
an alert for every entry with `abs(rate) >= threshold` and
`volume >= volume_filter`. -/
def check_threshold_alerts (funding_rates : Snapshot)
    (threshold volume_filter now : ℚ) : List AlertData :=
  funding_rates.foldl
    (fun alerts p =>
      if threshold ≤ |p.2.rate| ∧ volume_filter ≤ p.2.volume then
        alerts ++ [mkAlert now p.1 p.2]
      else alerts)
    []

instance : Inhabited FundingEntry := ⟨⟨[], 0, 0, 0, 0⟩⟩

instance : Inhabited BinanceMark := ⟨⟨0, 0, 0⟩⟩

instance : Inhabited OKXFunding := ⟨⟨0, 0⟩⟩

instance : Inhabited OKXTicker := ⟨⟨0, 0⟩⟩

/-! Helper lemmas. -/

theorem foldl_preserve {α β : Type _} (step : β → α → β) (P : β → Prop)
    (h : ∀ acc x, P acc → P (step acc x)) :
    ∀ (l : List α) (acc : β), P acc → P (l.foldl step acc) := by
  intro l
  induction l with
  | nil => exact fun acc hacc => hacc
  | cons x xs ih => exact fun acc hacc => ih _ (h _ _ hacc)

theorem foldl_reach {α β : Type _} (step : β → α → β) (P : β → Prop) (x₀ : α)
    (hmono : ∀ acc x, P acc → P (step acc x))
    (hhit : ∀ acc, P (step acc x₀)) :
    ∀ (l : List α) (acc : β), x₀ ∈ l → P (l.foldl step acc) := by
  intro l
  induction l with
  | nil => intro acc h; cases h
  | cons x xs ih =>
    intro acc hmem
    rcases List.mem_cons.mp hmem with h | h
    · subst h; exact foldl_preserve step P hmono xs _ (hhit acc)
    · exact ih _ h

theorem mem_keys_insertAL_self {β : Type} (s : List (Str × β)) (k : Str) (v : β) :
    k ∈ keys (insertAL s k v) := by
  induction s with
  | nil => simp [insertAL, keys]
  | cons p rest ih =>
    by_cases h : p.1 = k
    · simp [insertAL, h, keys]
    · simp only [insertAL, h, if_false, keys, List.mem_cons]
      exact Or.inr ih

theorem mem_keys_insertAL_of_mem {β : Type} {s : List (Str × β)} {a : Str}
    (k : Str) (v : β) (h : a ∈ keys s) : a ∈ keys (insertAL s k v) := by
  induction s with
  | nil => cases h
  | cons p rest ih =>
    rcases (by simpa [keys] using h : a = p.1 ∨ a ∈ keys rest) with h1 | h1
    · by_cases hk : p.1 = k
      · simp [insertAL, hk, keys, h1, hk ▸ h1]
      · simp [insertAL, hk, keys, h1]
    · by_cases hk : p.1 = k
      · simp only [insertAL, hk, if_true, keys, List.mem_cons]
        exact Or.inr h1
      · simp only [insertAL, hk, if_false, keys, List.mem_cons]
        exact Or.inr (ih h1)

theorem keys_insertAL_cases {β : Type} :
    ∀ {s : List (Str × β)} {k : Str} {v : β} {a : Str},
      a ∈ keys (insertAL s k v) → a = k ∨ a ∈ keys s := by
  intro s
  induction s with
  | nil =>
    intro k v a h
    simpa [insertAL, keys] using h
  | cons p rest ih =>
    intro k v a h
    by_cases hk : p.1 = k
    · rcases (by simpa [insertAL, hk, keys] using h : a = k ∨ a ∈ keys rest) with h1 | h1
      · exact Or.inl h1
      · exact Or.inr (by simp [keys, h1])
    · rcases (by simpa [insertAL, hk, keys] using h : a = p.1 ∨ a ∈ keys (insertAL rest k v))
        with h1 | h1
      · exact Or.inr (by simp [keys, h1])
      · rcases ih h1 with h2 | h2
        · exact Or.inl h2
        · exact Or.inr (by simp [keys, h2])

theorem mem_insertAL_cases {β : Type} :
    ∀ {s : List (Str × β)} {k : Str} {v : β} {q : Str × β},
      q ∈ insertAL s k v → q = (k, v) ∨ q ∈ s := by
  intro s
  induction s with
  | nil =>
    intro k v q h
    simpa [insertAL] using h
  | cons p rest ih =>
    intro k v q h
    by_cases hk : p.1 = k
    · rcases (by simpa [insertAL, hk] using h : q = (k, v) ∨ q ∈ rest) with h1 | h1
      · exact Or.inl h1
      · exact Or.inr (List.mem_cons_of_mem _ h1)
    · rcases (by simpa [insertAL, hk] using h : q = p ∨ q ∈ insertAL rest k v) with h1 | h1
      · exact Or.inr (by simp [h1])
      · rcases ih h1 with h2 | h2
        · exact Or.inl h2
        · exact Or.inr (List.mem_cons_of_mem _ h2)

theorem endsWith_append (b t : Str) : endsWith (b ++ t) t = true := by
  simp only [endsWith, List.isSuffixOf_iff_suffix]
  exact List.suffix_append b t

theorem dropLast4_append (b t : Str) (ht : t.length = 4) : dropLast4 (b ++ t) = b := by
  have hlen : (b ++ t).length - 4 = b.length := by
    simp [List.length_append, ht]
  rw [dropLast4, hlen]
  exact List.take_left b t

theorem splitHead_append (c : Char) (b rest : Str) (hb : ∀ x ∈ b, x ≠ c) :
    splitHead c (b ++ c :: rest) = b := by
  rw [splitHead, List.takeWhile_append_of_pos (by
    intro a ha
    simpa using hb a ha)]
  simp

theorem foldl_preserve_mem {α β : Type _} (step : β → α → β) (P : β → Prop) :
    ∀ (l : List α), (∀ acc x, x ∈ l → P acc → P (step acc x)) →
      ∀ acc, P acc → P (l.foldl step acc) := by
  intro l
  induction l with
  | nil => exact fun _ acc h => h
  | cons x xs ih =>
    intro h acc hacc
    exact ih (fun acc y hy => h acc y (List.mem_cons_of_mem _ hy)) _
      (h acc x (List.mem_cons_self _ _) hacc)

theorem keys_subset_insert_aux {β : Type} (spot : List Str) (acc : List (Str × β))
    (key : Str) (v : β) (h : ∀ a ∈ keys acc, a ∈ spot) (hkey : key ∈ spot) :
    ∀ a ∈ keys (insertAL acc key v), a ∈ spot := by
  intro a ha
  rcases keys_insertAL_cases ha with h1 | h1
  · exact h1 ▸ hkey
  · exact h a h1

theorem bybitStep_keys_subset (spot : List Str) (acc : Snapshot) (item : BybitTicker)
    (h : ∀ a ∈ keys acc, a ∈ spot) :
    ∀ a ∈ keys (bybitStep true spot acc item), a ∈ spot := by
  unfold bybitStep
  cases hn : bybitNormalize item.symbol with
  | none => exact h
  | some key =>
    by_cases hmem : key ∈ spot
    · simpa [hmem] using keys_subset_insert_aux spot acc key _ h hmem
    · simpa [hmem] using h

theorem bybitStep_keys_mono (uf : Bool) (spot : List Str) (acc : Snapshot)
    (item : BybitTicker) {a : Str} (h : a ∈ keys acc) :
    a ∈ keys (bybitStep uf spot acc item) := by
  unfold bybitStep
  cases hn : bybitNormalize item.symbol with
  | none => exact h
  | some key =>
    by_cases hc : (uf && !decide (key ∈ spot)) = true
    · simpa [hc] using h
    · simpa [hc] using mem_keys_insertAL_of_mem key _ h

theorem bitgetStep_keys_subset (spot : List Str) (acc : Snapshot) (item : BitgetTicker)
    (h : ∀ a ∈ keys acc, a ∈ spot) :
    ∀ a ∈ keys (bitgetStep true spot acc item), a ∈ spot := by
  unfold bitgetStep
  cases hn : bitgetNormalize item.symbol with
  | none => exact h
  | some key =>
    by_cases hmem : key ∈ spot
    · simpa [hmem] using keys_subset_insert_aux spot acc key _ h hmem
    · simpa [hmem] using h

theorem bitgetStep_keys_mono (uf : Bool) (spot : List Str) (acc : Snapshot)
    (item : BitgetTicker) {a : Str} (h : a ∈ keys acc) :
    a ∈ keys (bitgetStep uf spot acc item) := by
  unfold bitgetStep
  cases hn : bitgetNormalize item.symbol with
  | none => exact h
  | some key =>
    by_cases hc : (uf && !decide (key ∈ spot)) = true
    · simpa [hc] using h
    · simpa [hc] using mem_keys_insertAL_of_mem key _ h

theorem binanceSnapStep_keys_subset (st : BinanceState) (spot : List Str)
    (snap : Snapshot) (p : Str × BinanceMark)
    (h : ∀ a ∈ keys snap, a ∈ spot) :
    ∀ a ∈ keys (binanceSnapStep st true spot snap p), a ∈ spot := by
  unfold binanceSnapStep
  by_cases hmem : p.1 ∈ spot
  · simpa [hmem] using keys_subset_insert_aux spot snap p.1 _ h hmem
  · simpa [hmem] using h

theorem binanceSnapStep_keys_mono (st : BinanceState) (uf : Bool) (spot : List Str)
    (snap : Snapshot) (p : Str × BinanceMark) {a : Str} (h : a ∈ keys snap) :
    a ∈ keys (binanceSnapStep st uf spot snap p) := by
  unfold binanceSnapStep
  by_cases hc : (uf && !decide (p.1 ∈ spot)) = true
  · simpa [hc] using h
  · simpa [hc] using mem_keys_insertAL_of_mem p.1 _ h

theorem okxSnapStep_keys_subset (st : OKXState) (spot : List Str)
    (snap : Snapshot) (p : Str × OKXFunding)
    (h : ∀ a ∈ keys snap, a ∈ spot) :
    ∀ a ∈ keys (okxSnapStep st true spot snap p), a ∈ spot := by
  unfold okxSnapStep
  by_cases hmem : p.1 ∈ spot
  · simpa [hmem] using keys_subset_insert_aux spot snap p.1 _ h hmem
  · simpa [hmem] using h

theorem okxSnapStep_keys_mono (st : OKXState) (uf : Bool) (spot : List Str)
    (snap : Snapshot) (p : Str × OKXFunding) {a : Str} (h : a ∈ keys snap) :
    a ∈ keys (okxSnapStep st uf spot snap p) := by
  unfold okxSnapStep
  by_cases hc : (uf && !decide (p.1 ∈ spot)) = true
  · simpa [hc] using h
  · simpa [hc] using mem_keys_insertAL_of_mem p.1 _ h

/-- C1: for each collector (the Bybit and Bitget REST fetchers and the
Binance and OKX streaming monitors' get_snapshot), with the spot filter
enabled every key of the returned snapshot belongs to the spot-symbol
set in use, and with the filter disabled every successfully parsed
USDT-perpetual instrument (every entry held by a streaming monitor)
appears in the snapshot regardless of spot-universe membership. -/
theorem collectors_spot_intersection :
    (∀ (spot : List Str) (resp : HttpResult BybitTickersResp) (a : Str),
        a ∈ keys (get_bybit_funding_rates true spot resp) → a ∈ spot) ∧
    (∀ (spot : List Str) (items : List BybitTicker) (item : BybitTicker) (key : Str),
        item ∈ items → bybitNormalize item.symbol = some key →
        key ∈ keys (get_bybit_funding_rates false spot (.ok 200 ⟨0, items⟩))) ∧
    (∀ (spot : List Str) (resp : HttpResult BitgetTickersResp) (a : Str),
        a ∈ keys (get_bitget_funding_rates true spot resp) → a ∈ spot) ∧
    (∀ (spot : List Str) (items : List BitgetTicker) (item : BitgetTicker) (key : Str),
        item ∈ items → bitgetNormalize item.symbol = some key →
        key ∈ keys (get_bitget_funding_rates false spot (.ok 200 ⟨"00000".toList, items⟩))) ∧
    (∀ (st : BinanceState) (spot : List Str) (a : Str),
        a ∈ keys (binance_get_snapshot st true spot).2 → a ∈ spot) ∧
    (∀ (st : BinanceState) (spot : List Str) (p : Str × BinanceMark),
        p ∈ st.mark_data → p.1 ∈ keys (binance_get_snapshot st false spot).2) ∧
    (∀ (st : OKXState) (spot : List Str) (a : Str),
        a ∈ keys (okx_get_snapshot st true spot).2 → a ∈ spot) ∧
    (∀ (st : OKXState) (spot : List Str) (p : Str × OKXFunding),
        p ∈ st.funding_data → p.1 ∈ keys (okx_get_snapshot st false spot).2) := by
  refine ⟨?_, ?_, ?_, ?_, ?_, ?_, ?_, ?_⟩
  · intro spot resp a ha
    cases resp with
    | netError => simp [get_bybit_funding_rates, keys] at ha
    | ok status body =>
      by_cases hs : status = 200
      · by_cases hr : body.retCode = 0
        · rw [get_bybit_funding_rates] at ha
          simp only [hs, hr, if_true] at ha
          exact foldl_preserve _ (fun acc => ∀ a ∈ keys acc, a ∈ spot)
            (fun acc item h => bybitStep_keys_subset spot acc item h)
            body.list [] (by simp [keys]) a ha
        · simp [get_bybit_funding_rates, hs, hr, keys] at ha
      · simp [get_bybit_funding_rates, hs, keys] at ha
  · intro spot items item key hitem hn
    rw [get_bybit_funding_rates]
    simp only [if_true, reduceIte]
    exact foldl_reach _ (fun acc => key ∈ keys acc) item
      (fun acc x h => bybitStep_keys_mono false spot acc x h)
      (fun acc => by
        unfold bybitStep
        rw [hn]
        simpa using mem_keys_insertAL_self acc key _)
      items [] hitem
  · intro spot resp a ha
    cases resp with
    | netError => simp [get_bitget_funding_rates, keys] at ha
    | ok status body =>
      by_cases hs : status = 200
      · by_cases hr : body.code = "00000".toList
        · rw [get_bitget_funding_rates] at ha
          simp only [hs, hr, if_true] at ha
          exact foldl_preserve _ (fun acc => ∀ a ∈ keys acc, a ∈ spot)
            (fun acc item h => bitgetStep_keys_subset spot acc item h)
            body.data [] (by simp [keys]) a ha
        · rw [get_bitget_funding_rates, if_pos hs, if_neg hr] at ha
          simp [keys] at ha
      · simp [get_bitget_funding_rates, hs, keys] at ha
  · intro spot items item key hitem hn
    rw [get_bitget_funding_rates]
    simp only [if_true, reduceIte]
    exact foldl_reach _ (fun acc => key ∈ keys acc) item
      (fun acc x h => bitgetStep_keys_mono false spot acc x h)
      (fun acc => by
        unfold bitgetStep
        rw [hn]
        simpa using mem_keys_insertAL_self acc key _)
      items [] hitem
  · intro st spot a ha
    exact foldl_preserve _ (fun snap => ∀ a ∈ keys snap, a ∈ spot)
      (fun snap p h => binanceSnapStep_keys_subset st spot snap p h)
      st.mark_data [] (by simp [keys]) a ha
  · intro st spot p hp
    exact foldl_reach _ (fun snap => p.1 ∈ keys snap) p
      (fun snap x h => binanceSnapStep_keys_mono st false spot snap x h)
      (fun snap => by
        unfold binanceSnapStep
        simpa using mem_keys_insertAL_self snap p.1 _)
      st.mark_data [] hp
  · intro st spot a ha
    exact foldl_preserve _ (fun snap => ∀ a ∈ keys snap, a ∈ spot)
      (fun snap p h => okxSnapStep_keys_subset st spot snap p h)
      st.funding_data [] (by simp [keys]) a ha
  · intro st spot p hp
    exact foldl_reach _ (fun snap => p.1 ∈ keys snap) p
      (fun snap x h => okxSnapStep_keys_mono st false spot snap x h)
      (fun snap => by
        unfold okxSnapStep
        simpa using mem_keys_insertAL_self snap p.1 _)
      st.funding_data [] hp

theorem collectors_spot_intersection_witness :
    canonKey "BTC".toList ∈ [canonKey "BTC".toList] ∧
    canonKey "BTC".toList ∈ keys (get_bybit_funding_rates false []
      (.ok 200 ⟨0, [⟨"BTCUSDT".toList, 0, 0, 0, 0⟩]⟩)) ∧
    canonKey "BTC".toList ∈ keys (get_bitget_funding_rates false []
      (.ok 200 ⟨"00000".toList, [⟨"BTCUSDT_UMCBL".toList, 0, 0, 0⟩]⟩)) ∧
    canonKey "BTC".toList ∈ keys
      (binance_get_snapshot ⟨[(canonKey "BTC".toList, ⟨0, 0, 0⟩)], []⟩ false []).2 ∧
    canonKey "BTC".toList ∈ keys
      (okx_get_snapshot ⟨[(canonKey "BTC".toList, ⟨0, 0⟩)], []⟩ false []).2 ∧
    canonKey "ETH".toList ∈ [canonKey "ETH".toList] ∧
    canonKey "SOL".toList ∈ [canonKey "SOL".toList] ∧
    canonKey "XRP".toList ∈ [canonKey "XRP".toList] := by
  refine ⟨?_, ?_, ?_, ?_, ?_, ?_, ?_, ?_⟩
  · exact collectors_spot_intersection.1 [canonKey "BTC".toList]
      (.ok 200 ⟨0, [⟨"BTCUSDT".toList, 0, 0, 0, 0⟩]⟩) (canonKey "BTC".toList) (by decide)
  · exact collectors_spot_intersection.2.1 [] [⟨"BTCUSDT".toList, 0, 0, 0, 0⟩]
      ⟨"BTCUSDT".toList, 0, 0, 0, 0⟩ (canonKey "BTC".toList) (by simp) (by decide)
  · exact collectors_spot_intersection.2.2.2.1 [] [⟨"BTCUSDT_UMCBL".toList, 0, 0, 0⟩]
      ⟨"BTCUSDT_UMCBL".toList, 0, 0, 0⟩ (canonKey "BTC".toList) (by simp) (by decide)
  · exact collectors_spot_intersection.2.2.2.2.2.1
      ⟨[(canonKey "BTC".toList, ⟨0, 0, 0⟩)], []⟩ []
      (canonKey "BTC".toList, ⟨0, 0, 0⟩) (by simp)
  · exact collectors_spot_intersection.2.2.2.2.2.2.2
      ⟨[(canonKey "BTC".toList, ⟨0, 0⟩)], []⟩ []
      (canonKey "BTC".toList, ⟨0, 0⟩) (by simp)
  · exact collectors_spot_intersection.2.2.1 [canonKey "ETH".toList]
      (.ok 200 ⟨"00000".toList, [⟨"ETHUSDT_UMCBL".toList, 0, 0, 0⟩]⟩)
      (canonKey "ETH".toList) (by decide)
  · exact collectors_spot_intersection.2.2.2.2.1
      ⟨[(canonKey "SOL".toList, ⟨0, 0, 0⟩)], []⟩ [canonKey "SOL".toList]
      (canonKey "SOL".toList) (by decide)
  · exact collectors_spot_intersection.2.2.2.2.2.2.1
      ⟨[(canonKey "XRP".toList, ⟨0, 0⟩)], []⟩ [canonKey "XRP".toList]
      (canonKey "XRP".toList) (by decide)

theorem binance_beq_bybit : (exchBinance == exchBybit) = false := by decide

theorem bitget_beq_bybit : (exchBitget == exchBybit) = false := by decide

theorem bitget_beq_binance : (exchBitget == exchBinance) = false := by decide

theorem okx_beq_bybit : (exchOkx == exchBybit) = false := by decide

theorem okx_beq_binance : (exchOkx == exchBinance) = false := by decide

theorem okx_beq_bitget : (exchOkx == exchBitget) = false := by decide

/-- C2: get_all_funding_rates keys its result by exchange identifier,
each requested exchange's entry is exactly the snapshot its own
collector produced (independently of every other collector's result, in
particular when another collector degrades to the empty snapshot), and
only requested exchanges appear: the merge is a pure join with no error
handling of its own. -/
theorem aggregator_pure_join :
    (∀ (exchanges : List Str) (b n g o : Snapshot), exchBybit ∈ exchanges →
        (get_all_funding_rates exchanges b n g o).lookup exchBybit = some b) ∧
    (∀ (exchanges : List Str) (b n g o : Snapshot), exchBinance ∈ exchanges →
        (get_all_funding_rates exchanges b n g o).lookup exchBinance = some n) ∧
    (∀ (exchanges : List Str) (b n g o : Snapshot), exchBitget ∈ exchanges →
        (get_all_funding_rates exchanges b n g o).lookup exchBitget = some g) ∧
    (∀ (exchanges : List Str) (b n g o : Snapshot), exchOkx ∈ exchanges →
        (get_all_funding_rates exchanges b n g o).lookup exchOkx = some o) ∧
    (∀ (exchanges : List Str) (b n g o : Snapshot) (q : Str × Snapshot),
        q ∈ get_all_funding_rates exchanges b n g o → q.1 ∈ exchanges) := by
  refine ⟨?_, ?_, ?_, ?_, ?_⟩
  · intro ex b n g o h
    simp [get_all_funding_rates, h, List.lookup_append]
  · intro ex b n g o h
    by_cases h1 : exchBybit ∈ ex <;>
      simp [get_all_funding_rates, h, h1, List.lookup_append, List.lookup_cons,
        binance_beq_bybit]
  · intro ex b n g o h
    by_cases h1 : exchBybit ∈ ex <;> by_cases h2 : exchBinance ∈ ex <;>
      simp [get_all_funding_rates, h, h1, h2, List.lookup_append, List.lookup_cons,
        bitget_beq_bybit, bitget_beq_binance]
  · intro ex b n g o h
    by_cases h1 : exchBybit ∈ ex <;> by_cases h2 : exchBinance ∈ ex <;>
      by_cases h3 : exchBitget ∈ ex <;>
      simp [get_all_funding_rates, h, h1, h2, h3, List.lookup_append, List.lookup_cons,
        okx_beq_bybit, okx_beq_binance, okx_beq_bitget]
  · intro ex b n g o q hq
    rw [get_all_funding_rates] at hq
    rcases List.mem_append.mp hq with hq1 | hq2
    · rcases List.mem_append.mp hq1 with hq3 | hq4
      · rcases List.mem_append.mp hq3 with hq5 | hq6
        · by_cases h1 : exchBybit ∈ ex
          · simp [h1] at hq5
            simp [hq5, h1]
          · simp [h1] at hq5
        · by_cases h2 : exchBinance ∈ ex
          · simp [h2] at hq6
            simp [hq6, h2]
          · simp [h2] at hq6
      · by_cases h3 : exchBitget ∈ ex
        · simp [h3] at hq4
          simp [hq4, h3]
        · simp [h3] at hq4
    · by_cases h4 : exchOkx ∈ ex
      · simp [h4] at hq2
        simp [hq2, h4]
      · simp [h4] at hq2

theorem aggregator_pure_join_witness :
    (get_all_funding_rates [exchBybit, exchBinance, exchBitget, exchOkx]
        [] [] [] [(canonKey "BTC".toList, ⟨canonKey "BTC".toList, 1, 2, 3, 4⟩)]).lookup exchOkx
      = some [(canonKey "BTC".toList, ⟨canonKey "BTC".toList, 1, 2, 3, 4⟩)] ∧
    (get_all_funding_rates [exchBybit, exchBinance, exchBitget, exchOkx]
        [] [] [] [(canonKey "BTC".toList, ⟨canonKey "BTC".toList, 1, 2, 3, 4⟩)]).lookup exchBybit
      = some [] ∧
    (get_all_funding_rates [exchBybit, exchBinance, exchBitget, exchOkx]
        [] [] [] [(canonKey "BTC".toList, ⟨canonKey "BTC".toList, 1, 2, 3, 4⟩)]).lookup exchBinance
      = some [] ∧
    (get_all_funding_rates [exchBybit, exchBinance, exchBitget, exchOkx]
        [] [] [] [(canonKey "BTC".toList, ⟨canonKey "BTC".toList, 1, 2, 3, 4⟩)]).lookup exchBitget
      = some [] ∧
    exchBybit ∈ [exchBybit, exchBinance, exchBitget, exchOkx] := by
  refine ⟨?_, ?_, ?_, ?_, ?_⟩
  · exact aggregator_pure_join.2.2.2.1 _ _ _ _ _ (by decide)
  · exact aggregator_pure_join.1 _ _ _ _ _ (by decide)
  · exact aggregator_pure_join.2.1 _ _ _ _ _ (by decide)
  · exact aggregator_pure_join.2.2.1 _ _ _ _ _ (by decide)
  · exact aggregator_pure_join.2.2.2.2 [exchBybit, exchBinance, exchBitget, exchOkx]
      [] [] [] [(canonKey "BTC".toList, ⟨canonKey "BTC".toList, 1, 2, 3, 4⟩)]
      (exchBybit, []) (by simp [get_all_funding_rates])

theorem orderedInsert_filter_key (a : Str × ℚ) (s : List (Str × ℚ)) (v : ℚ) :
    (List.orderedInsert rateAbsGE a s).filter (fun x => decide (|x.2| = v))
      = if |a.2| = v then a :: s.filter (fun x => decide (|x.2| = v))
        else s.filter (fun x => decide (|x.2| = v)) := by
  induction s with
  | nil => by_cases h : |a.2| = v <;> simp [List.orderedInsert, h]
  | cons b t ih =>
    by_cases hr : rateAbsGE a b
    · rw [List.orderedInsert, if_pos hr]
      by_cases h : |a.2| = v <;> by_cases hb : |b.2| = v <;> simp [h, hb]
    · rw [List.orderedInsert, if_neg hr]
      have hab : |a.2| < |b.2| := lt_of_not_le hr
      by_cases h : |a.2| = v
      · have hb : ¬ |b.2| = v := by
          intro hc
          rw [hc, ← h] at hab
          exact lt_irrefl _ hab
        simp [h, hb, ih]
      · by_cases hb : |b.2| = v <;> simp [h, hb, ih]

theorem insertionSort_filter_key (l : List (Str × ℚ)) (v : ℚ) :
    (List.insertionSort rateAbsGE l).filter (fun x => decide (|x.2| = v))
      = l.filter (fun x => decide (|x.2| = v)) := by
  induction l with
  | nil => rfl
  | cons a t ih =>
    rw [List.insertionSort, orderedInsert_filter_key]
    by_cases h : |a.2| = v <;> simp [h, ih]

theorem mem_topFiltered_sign (funding_rates : Snapshot) (positive : Bool)
    (p : Str × ℚ) (hp : p ∈ topFiltered funding_rates positive) :
    (positive = true → 0 < p.2) ∧ (positive = false → p.2 ≤ 0) := by
  rw [topFiltered] at hp
  rcases List.mem_filterMap.mp hp with ⟨q, _, hq⟩
  by_cases hd : decide (0 < q.2.rate) = positive
  · rw [if_pos hd] at hq
    cases hq
    constructor
    · intro hpos
      rw [hpos] at hd
      simpa using of_decide_eq_true hd
    · intro hneg
      rw [hneg] at hd
      exact le_of_not_lt (of_decide_eq_false hd)
  · rw [if_neg hd] at hq
    cases hq

/-- C3 (amended): get_top_funding_rates returns at most five entries, the
positive branch returns strictly positive rates while the negative branch
returns non-positive (including zero) rates, the result is sorted by
non-increasing absolute rate, and ties keep the snapshot iteration order. -/
theorem get_top_funding_rates_spec (funding_rates : Snapshot) (positive : Bool) :
    (get_top_funding_rates funding_rates positive).length ≤ 5 ∧
    (∀ p ∈ get_top_funding_rates funding_rates positive,
      (positive = true → 0 < p.2) ∧ (positive = false → p.2 ≤ 0)) ∧
    (get_top_funding_rates funding_rates positive).Pairwise rateAbsGE ∧
    (∀ v : ℚ, (topSorted funding_rates positive).filter (fun x => decide (|x.2| = v))
      = (topFiltered funding_rates positive).filter (fun x => decide (|x.2| = v))) := by
  refine ⟨?_, ?_, ?_, ?_⟩
  · rw [get_top_funding_rates]
    exact List.length_take_le 5 (topSorted funding_rates positive)
  · intro p hp
    have hp1 : p ∈ topSorted funding_rates positive :=
      List.take_subset 5 _ hp
    have hp2 : p ∈ topFiltered funding_rates positive :=
      (List.perm_insertionSort rateAbsGE _).mem_iff.mp hp1
    exact mem_topFiltered_sign funding_rates positive p hp2
  · exact List.Pairwise.sublist (List.take_sublist 5 _)
      (List.sorted_insertionSort rateAbsGE (topFiltered funding_rates positive))
  · intro v
    exact insertionSort_filter_key _ v

/-- C3 counterexample to the claim as stated: with `positive = false` the
code keeps an entry whose rate is exactly zero, which is not negative. -/
theorem get_top_funding_rates_zero_cex :
    get_top_funding_rates [(canonKey "AAA".toList, ⟨canonKey "AAA".toList, 0, 0, 0, 0⟩)] false
      = [(canonKey "AAA".toList, 0)] ∧ ¬ ((0 : ℚ) < 0) := by
  constructor
  · norm_num [get_top_funding_rates, topSorted, topFiltered]
  · norm_num

theorem get_top_funding_rates_spec_witness :
    (0 : ℚ) < 3 ∧
    (get_top_funding_rates [(canonKey "BTC".toList, ⟨canonKey "BTC".toList, 3, 0, 0, 0⟩),
      (canonKey "ETH".toList, ⟨canonKey "ETH".toList, -1, 0, 0, 0⟩)] true).length ≤ 5 := by
  have h := get_top_funding_rates_spec
    [(canonKey "BTC".toList, ⟨canonKey "BTC".toList, 3, 0, 0, 0⟩),
      (canonKey "ETH".toList, ⟨canonKey "ETH".toList, -1, 0, 0, 0⟩)] true
  refine ⟨?_, h.1⟩
  have hmem : (canonKey "BTC".toList, (3 : ℚ)) ∈
      get_top_funding_rates [(canonKey "BTC".toList, ⟨canonKey "BTC".toList, 3, 0, 0, 0⟩),
        (canonKey "ETH".toList, ⟨canonKey "ETH".toList, -1, 0, 0, 0⟩)] true := by
    norm_num [get_top_funding_rates, topSorted, topFiltered, List.insertionSort,
      List.orderedInsert]
  exact (h.2.1 _ hmem).1 rfl

theorem foldl_guard_append {α β : Type _} (P : α → Prop) [DecidablePred P] (f : α → β) :
    ∀ (l : List α) (acc : List β),
      l.foldl (fun acc x => if P x then acc ++ [f x] else acc) acc
        = acc ++ (l.filter (fun x => decide (P x))).map f := by
  intro l
  induction l with
  | nil => simp
  | cons x xs ih =>
    intro acc
    by_cases h : P x
    · simp [h, ih, List.filter_cons]
    · simp [h, ih, List.filter_cons]

/-- C4: check_threshold_alerts selects exactly the entries passing both
the rate and the volume predicate, and the countdown of each alert is
the hours/minutes rendering of max(0, next_funding/1000 - now), with an
absent (zero) next-funding time reported as the explicit unknown text. -/
theorem check_threshold_alerts_spec (funding_rates : Snapshot)
    (threshold volume_filter now : ℚ) :
    check_threshold_alerts funding_rates threshold volume_filter now
      = (funding_rates.filter
          (fun p => decide (threshold ≤ |p.2.rate| ∧ volume_filter ≤ p.2.volume))).map
          (fun p => mkAlert now p.1 p.2) ∧
    (∀ (sym : Str) (d : FundingEntry), d.next_funding = 0 →
        (mkAlert now sym d).countdown = Countdown.unknown) ∧
    (∀ (sym : Str) (d : FundingEntry), d.next_funding ≠ 0 →
        (mkAlert now sym d).countdown
          = Countdown.time ⌊max 0 ((d.next_funding : ℚ) / 1000 - now) / 3600⌋
              ⌊(max 0 ((d.next_funding : ℚ) / 1000 - now)
                  - 3600 * (⌊max 0 ((d.next_funding : ℚ) / 1000 - now) / 3600⌋ : ℚ)) / 60⌋) := by
  refine ⟨?_, ?_, ?_⟩
  · rw [check_threshold_alerts]
    exact foldl_guard_append _ _ funding_rates []
  · intro sym d h
    simp [mkAlert, mkCountdown, h]
  · intro sym d h
    simp [mkAlert, mkCountdown, h]

theorem check_threshold_alerts_spec_witness :
    (mkAlert 0 (canonKey "BTC".toList) ⟨canonKey "BTC".toList, 1, 2, 3, 0⟩).countdown
        = Countdown.unknown ∧
    (mkAlert 0 (canonKey "BTC".toList) ⟨canonKey "BTC".toList, 1, 2, 3, 7200000⟩).countdown
        = Countdown.time 2 0 := by
  constructor
  · exact (check_threshold_alerts_spec [] 0 0 0).2.1 (canonKey "BTC".toList)
      ⟨canonKey "BTC".toList, 1, 2, 3, 0⟩ (by decide)
  · have h := (check_threshold_alerts_spec [] 0 0 0).2.2 (canonKey "BTC".toList)
      ⟨canonKey "BTC".toList, 1, 2, 3, 7200000⟩ (by decide)
    rw [h]
    norm_num

theorem get_bybit_spot_symbols_value_eq (st : CacheState) (now : ℚ) (f : BybitSpotFetch) :
    (get_bybit_spot_symbols st now f).value = (get_bybit_spot_symbols st now f).state.cache := by
  rw [get_bybit_spot_symbols.eq_def]
  split
  · rfl
  · cases f <;> rfl

theorem get_binance_spot_symbols_value_eq (st : CacheState) (now : ℚ)
    (f : BinanceSpotFetch) :
    (get_binance_spot_symbols st now f).value
      = (get_binance_spot_symbols st now f).state.cache := by
  rw [get_binance_spot_symbols.eq_def]
  split
  · rfl
  · cases f <;> rfl

theorem bybit_spot_fresh (st : CacheState) (now : ℚ) (f : BybitSpotFetch)
    (h1 : st.cache ≠ []) (h2 : now - st.lastFetch < SPOT_SYMBOL_TTL) :
    get_bybit_spot_symbols st now f = ⟨st.cache, st, false⟩ := by
  rw [get_bybit_spot_symbols.eq_def, if_pos ⟨h1, h2⟩]

theorem binance_spot_fresh (st : CacheState) (now : ℚ) (f : BinanceSpotFetch)
    (h1 : st.cache ≠ []) (h2 : now - st.lastFetch < SPOT_SYMBOL_TTL) :
    get_binance_spot_symbols st now f = ⟨st.cache, st, false⟩ := by
  rw [get_binance_spot_symbols.eq_def, if_pos ⟨h1, h2⟩]

/-- C5 (amended): when a spot-symbol get call leaves a non-empty cached
set stamped at time t, a second call within the TTL window issues no
network request and returns the set the first call returned. -/
theorem spot_cache_ttl_spec :
    (∀ (st : CacheState) (t t' : ℚ) (f1 f2 : BybitSpotFetch),
      (get_bybit_spot_symbols st t f1).state.cache ≠ [] →
      (get_bybit_spot_symbols st t f1).state.lastFetch = t →
      t' - t < SPOT_SYMBOL_TTL →
      (get_bybit_spot_symbols (get_bybit_spot_symbols st t f1).state t' f2).network = false ∧
      (get_bybit_spot_symbols (get_bybit_spot_symbols st t f1).state t' f2).value
        = (get_bybit_spot_symbols st t f1).value) ∧
    (∀ (st : CacheState) (t t' : ℚ) (f1 f2 : BinanceSpotFetch),
      (get_binance_spot_symbols st t f1).state.cache ≠ [] →
      (get_binance_spot_symbols st t f1).state.lastFetch = t →
      t' - t < SPOT_SYMBOL_TTL →
      (get_binance_spot_symbols (get_binance_spot_symbols st t f1).state t' f2).network
        = false ∧
      (get_binance_spot_symbols (get_binance_spot_symbols st t f1).state t' f2).value
        = (get_binance_spot_symbols st t f1).value) := by
  constructor
  · intro st t t' f1 f2 hne hlast htt
    have hfresh := bybit_spot_fresh (get_bybit_spot_symbols st t f1).state t' f2 hne
      (by rw [hlast]; exact htt)
    rw [hfresh]
    exact ⟨rfl, (get_bybit_spot_symbols_value_eq st t f1).symm⟩
  · intro st t t' f1 f2 hne hlast htt
    have hfresh := binance_spot_fresh (get_binance_spot_symbols st t f1).state t' f2 hne
      (by rw [hlast]; exact htt)
    rw [hfresh]
    exact ⟨rfl, (get_binance_spot_symbols_value_eq st t f1).symm⟩

/-- C5 counterexample to the claim as stated: a completed get call that
stored an empty set does not arm the cache, so a second call 1 second
later issues a network request and can return a different set. -/
theorem spot_cache_ttl_claim_cex :
    (get_bybit_spot_symbols ⟨[], 0⟩ 10000 (.ok 0 [])).value = [] ∧
    (get_bybit_spot_symbols ⟨[], 0⟩ 10000 (.ok 0 [])).state = ⟨[], 10000⟩ ∧
    (get_bybit_spot_symbols ⟨[], 10000⟩ 10001
        (.ok 0 [⟨usdtTail, "BTC".toList⟩])).network = true ∧
    (get_bybit_spot_symbols ⟨[], 10000⟩ 10001
        (.ok 0 [⟨usdtTail, "BTC".toList⟩])).value = [canonKey "BTC".toList] := by
  refine ⟨?_, ?_, ?_, ?_⟩ <;>
    norm_num +decide [get_bybit_spot_symbols, bybitSpotSymbols, addSet, SPOT_SYMBOL_TTL]

theorem spot_cache_ttl_spec_witness :
    (get_bybit_spot_symbols
        (get_bybit_spot_symbols ⟨[], 0⟩ 0 (.ok 0 [⟨usdtTail, "BTC".toList⟩])).state 10
        .netError).network = false ∧
    (get_bybit_spot_symbols
        (get_bybit_spot_symbols ⟨[], 0⟩ 0 (.ok 0 [⟨usdtTail, "BTC".toList⟩])).state 10
        .netError).value
      = (get_bybit_spot_symbols ⟨[], 0⟩ 0 (.ok 0 [⟨usdtTail, "BTC".toList⟩])).value := by
  exact spot_cache_ttl_spec.1 ⟨[], 0⟩ 0 10 (.ok 0 [⟨usdtTail, "BTC".toList⟩]) .netError
    (by norm_num +decide [get_bybit_spot_symbols, bybitSpotSymbols, addSet, SPOT_SYMBOL_TTL])
    (by norm_num +decide [get_bybit_spot_symbols, bybitSpotSymbols, addSet, SPOT_SYMBOL_TTL])
    (by norm_num [SPOT_SYMBOL_TTL])

/-- C6 (amended): a spot-symbol fetch that raises (network or parse
error) returns the previous cached set with cache and timestamp
unchanged; but a delivered response with a non-success return code
replaces the cache with the empty set parsed under that code, stamps the
current time, and returns that empty set. -/
theorem spot_fetch_failure_spec :
    (∀ (st : CacheState) (now : ℚ),
        (get_bybit_spot_symbols st now .netError).value = st.cache ∧
        (get_bybit_spot_symbols st now .netError).state = st) ∧
    (∀ (st : CacheState) (now : ℚ),
        (get_bitget_spot_symbols st now .netError).value = st.cache ∧
        (get_bitget_spot_symbols st now .netError).state = st) ∧
    (∀ (st : CacheState) (now : ℚ) (retCode : ℤ)
        (instruments : List BybitSpotInstrument), retCode ≠ 0 →
        ¬(st.cache ≠ [] ∧ now - st.lastFetch < SPOT_SYMBOL_TTL) →
        (get_bybit_spot_symbols st now (.ok retCode instruments)).value = [] ∧
        (get_bybit_spot_symbols st now (.ok retCode instruments)).state = ⟨[], now⟩) ∧
    (∀ (st : CacheState) (now : ℚ) (code : Str) (data : List BitgetSpotSymbolInfo),
        code ≠ "00000".toList →
        ¬(st.cache ≠ [] ∧ now - st.lastFetch < SPOT_SYMBOL_TTL) →
        (get_bitget_spot_symbols st now (.ok code data)).value = [] ∧
        (get_bitget_spot_symbols st now (.ok code data)).state = ⟨[], now⟩) := by
  refine ⟨?_, ?_, ?_, ?_⟩
  · intro st now
    rw [get_bybit_spot_symbols.eq_def]
    split
    · exact ⟨rfl, rfl⟩
    · exact ⟨rfl, rfl⟩
  · intro st now
    rw [get_bitget_spot_symbols.eq_def]
    split
    · exact ⟨rfl, rfl⟩
    · exact ⟨rfl, rfl⟩
  · intro st now retCode instruments hrc hcond
    rw [get_bybit_spot_symbols.eq_def, if_neg hcond]
    simp [bybitSpotSymbols, hrc]
  · intro st now code data hcode hcond
    rw [get_bitget_spot_symbols.eq_def, if_neg hcond]
    have hempty : bitgetSpotSymbols code data = [] := by
      rw [bitgetSpotSymbols, if_neg hcode]
    simp [hempty]

/-- C6 counterexample to the claim as stated: with a stale cache holding
one symbol, a delivered response with non-success return code 1 does not
leave the cache unchanged: it erases the cached set, restamps the
timestamp and returns the empty set instead of the previous one. -/
theorem spot_fetch_failure_claim_cex :
    (get_bybit_spot_symbols ⟨[canonKey "BTC".toList], 0⟩ 4000 (.ok 1 [])).value = [] ∧
    (get_bybit_spot_symbols ⟨[canonKey "BTC".toList], 0⟩ 4000 (.ok 1 [])).state
      = ⟨[], 4000⟩ ∧
    [canonKey "BTC".toList] ≠ ([] : List Str) := by
  refine ⟨?_, ?_, by decide⟩ <;>
    norm_num +decide [get_bybit_spot_symbols, bybitSpotSymbols, SPOT_SYMBOL_TTL]

theorem spot_fetch_failure_spec_witness :
    (get_bybit_spot_symbols ⟨[], 0⟩ 5000 (.ok 1 [])).value = [] ∧
    (get_bybit_spot_symbols ⟨[], 0⟩ 5000 (.ok 1 [])).state = ⟨[], 5000⟩ ∧
    (get_bitget_spot_symbols ⟨[], 0⟩ 5000 (.ok "1".toList [])).value = [] ∧
    (get_bitget_spot_symbols ⟨[], 0⟩ 5000 (.ok "1".toList [])).state = ⟨[], 5000⟩ ∧
    (get_bybit_spot_symbols ⟨[canonKey "ETH".toList], 3⟩ 7 .netError).value
      = [canonKey "ETH".toList] := by
  have h1 := spot_fetch_failure_spec.2.2.1 ⟨[], 0⟩ 5000 1 [] (by decide) (by
    norm_num [SPOT_SYMBOL_TTL])
  have h2 := spot_fetch_failure_spec.2.2.2 ⟨[], 0⟩ 5000 "1".toList [] (by decide) (by
    norm_num [SPOT_SYMBOL_TTL])
  have h3 := spot_fetch_failure_spec.1 ⟨[canonKey "ETH".toList], 3⟩ 7
  exact ⟨h1.1, h1.2, h2.1, h2.2, h3.1⟩

/-- C7: a REST funding fetch that raises, or whose response has a
non-200 status, yields the empty snapshot, never an exception; a
non-success body code likewise degrades to the empty snapshot.  The
fetcher consumes exactly one response and never retries. -/
theorem rest_fetcher_failure_empty :
    (∀ (uf : Bool) (spot : List Str),
        get_bybit_funding_rates uf spot .netError = []) ∧
    (∀ (uf : Bool) (spot : List Str),
        get_bitget_funding_rates uf spot .netError = []) ∧
    (∀ (uf : Bool) (spot : List Str) (status : Nat) (body : BybitTickersResp),
        status ≠ 200 → get_bybit_funding_rates uf spot (.ok status body) = []) ∧
    (∀ (uf : Bool) (spot : List Str) (status : Nat) (body : BitgetTickersResp),
        status ≠ 200 → get_bitget_funding_rates uf spot (.ok status body) = []) ∧
    (∀ (uf : Bool) (spot : List Str) (status : Nat) (body : BybitTickersResp),
        body.retCode ≠ 0 → get_bybit_funding_rates uf spot (.ok status body) = []) ∧
    (∀ (uf : Bool) (spot : List Str) (status : Nat) (body : BitgetTickersResp),
        body.code ≠ "00000".toList →
        get_bitget_funding_rates uf spot (.ok status body) = []) := by
  refine ⟨fun _ _ => rfl, fun _ _ => rfl, ?_, ?_, ?_, ?_⟩
  · intro uf spot status body h
    simp [get_bybit_funding_rates, h]
  · intro uf spot status body h
    simp [get_bitget_funding_rates, h]
  · intro uf spot status body h
    by_cases hs : status = 200
    · simp [get_bybit_funding_rates, hs, h]
    · simp [get_bybit_funding_rates, hs]
  · intro uf spot status body h
    by_cases hs : status = 200
    · simp only [get_bitget_funding_rates, hs, if_true, reduceIte]
      rw [if_neg h]
    · simp [get_bitget_funding_rates, hs]

theorem rest_fetcher_failure_empty_witness :
    get_bybit_funding_rates true [] (.ok 500 ⟨0, []⟩) = [] ∧
    get_bitget_funding_rates true [] (.ok 500 ⟨"00000".toList, []⟩) = [] ∧
    get_bybit_funding_rates false [] (.ok 200 ⟨10001, []⟩) = [] ∧
    get_bitget_funding_rates false [] (.ok 200 ⟨"40004".toList, []⟩) = [] := by
  refine ⟨?_, ?_, ?_, ?_⟩
  · exact rest_fetcher_failure_empty.2.2.1 true [] 500 ⟨0, []⟩ (by decide)
  · exact rest_fetcher_failure_empty.2.2.2.1 true [] 500 ⟨"00000".toList, []⟩ (by decide)
  · exact rest_fetcher_failure_empty.2.2.2.2.1 false [] 200 ⟨10001, []⟩ (by decide)
  · exact rest_fetcher_failure_empty.2.2.2.2.2 false [] 200 ⟨"40004".toList, []⟩ (by decide)

/-- C8: canonicalization is a pure function of the raw symbol, and the
Bybit, Bitget and OKX spellings of the same base/USDT perpetual all
normalize to the identical canonical key BASE/USDT:USDT (for any base
asset free of the exchanges' separator characters). -/
theorem normalize_cross_exchange (b : Str) (hu : '_' ∉ b) (hd : '-' ∉ b) :
    bybitNormalize (b ++ "USDT".toList) = some (canonKey b) ∧
    bitgetNormalize (b ++ "USDT_UMCBL".toList) = some (canonKey b) ∧
    okxNormalize (b ++ "-USDT-SWAP".toList) = some (canonKey b) := by
  have husdt : ("USDT".toList : Str) = usdtTail := rfl
  have hlen4 : (usdtTail : Str).length = 4 := by decide
  refine ⟨?_, ?_, ?_⟩
  · rw [husdt, bybitNormalize, if_pos (endsWith_append b usdtTail),
      dropLast4_append b usdtTail hlen4]
  · have hdecomp : b ++ "USDT_UMCBL".toList = (b ++ usdtTail) ++ umcblTail := by
      rw [List.append_assoc]
      exact congrArg (b ++ ·) (by decide)
    have hdecomp2 : b ++ "USDT_UMCBL".toList = (b ++ usdtTail) ++ '_' :: "UMCBL".toList := by
      rw [List.append_assoc]
      exact congrArg (b ++ ·) (by decide)
    have hsplit : splitHead '_' (b ++ "USDT_UMCBL".toList) = b ++ usdtTail := by
      rw [hdecomp2]
      refine splitHead_append '_' (b ++ usdtTail) _ ?_
      intro x hx
      rcases List.mem_append.mp hx with hxb | hxu
      · exact fun hc => hu (hc ▸ hxb)
      · exact (by decide : ∀ y ∈ usdtTail, y ≠ '_') x hxu
    rw [bitgetNormalize]
    rw [hdecomp, if_pos (endsWith_append (b ++ usdtTail) umcblTail), ← hdecomp, hsplit]
    rw [if_pos (endsWith_append b usdtTail), dropLast4_append b usdtTail hlen4]
  · have hdecomp : b ++ "-USDT-SWAP".toList = b ++ usdtSwapTail := rfl
    have hdecomp2 : b ++ "-USDT-SWAP".toList = b ++ '-' :: "USDT-SWAP".toList := rfl
    have hsplit : splitHead '-' (b ++ "-USDT-SWAP".toList) = b := by
      rw [hdecomp2]
      refine splitHead_append '-' b _ ?_
      intro x hx
      exact fun hc => hd (hc ▸ hx)
    rw [okxNormalize, hdecomp, if_pos (endsWith_append b usdtSwapTail), ← hdecomp, hsplit]

theorem normalize_cross_exchange_witness :
    bybitNormalize "BTCUSDT".toList = some (canonKey "BTC".toList) ∧
    bitgetNormalize "BTCUSDT_UMCBL".toList = some (canonKey "BTC".toList) ∧
    okxNormalize "BTC-USDT-SWAP".toList = some (canonKey "BTC".toList) := by
  exact normalize_cross_exchange "BTC".toList (by decide) (by decide)

/-- C9 (amended): only the OKX streaming monitor pauses on a cold start:
its get_snapshot sleeps 3 seconds when no funding message has arrived
yet and does not pause otherwise, while the Binance monitor's
get_snapshot never pauses and returns immediately even on a cold start. -/
theorem monitor_cold_start_wait :
    (∀ (st : OKXState) (uf : Bool) (spot : List Str),
        st.funding_data = [] → (okx_get_snapshot st uf spot).1 = 3) ∧
    (∀ (st : OKXState) (uf : Bool) (spot : List Str),
        st.funding_data ≠ [] → (okx_get_snapshot st uf spot).1 = 0) ∧
    (∀ (st : BinanceState) (uf : Bool) (spot : List Str),
        (binance_get_snapshot st uf spot).1 = 0) := by
  refine ⟨?_, ?_, fun _ _ _ => rfl⟩
  · intro st uf spot h
    simp [okx_get_snapshot, h]
  · intro st uf spot h
    simp [okx_get_snapshot, h]

/-- C9 counterexample to the claim as stated: the Binance monitor's
get_snapshot, called on a cold start with no streamed data, suspends for
0 seconds and immediately returns the empty snapshot. -/
theorem monitor_cold_start_claim_cex :
    (binance_get_snapshot ⟨[], []⟩ true []).1 = 0 ∧
    (binance_get_snapshot ⟨[], []⟩ true []).2 = [] := ⟨rfl, rfl⟩

theorem monitor_cold_start_wait_witness :
    (okx_get_snapshot ⟨[], []⟩ true []).1 = 3 ∧
    (okx_get_snapshot ⟨[(canonKey "BTC".toList, ⟨0, 0⟩)], []⟩ true []).1 = 0 ∧
    (binance_get_snapshot ⟨[], []⟩ false []).1 = 0 := by
  refine ⟨?_, ?_, ?_⟩
  · exact monitor_cold_start_wait.1 ⟨[], []⟩ true [] rfl
  · exact monitor_cold_start_wait.2.1 ⟨[(canonKey "BTC".toList, ⟨0, 0⟩)], []⟩ true []
      (by simp)
  · exact monitor_cold_start_wait.2.2 ⟨[], []⟩ false []

theorem mem_keys_of_mem {β : Type} {s : List (Str × β)} {p : Str × β} (h : p ∈ s) :
    p.1 ∈ keys s := by
  induction s with
  | nil => cases h
  | cons q rest ih =>
    rcases List.mem_cons.mp h with h1 | h1
    · simp [keys, h1]
    · simp only [keys, List.mem_cons]
      exact Or.inr (ih h1)

theorem bybitNormalize_canonTail {s key : Str} (h : bybitNormalize s = some key) :
    endsWith key canonTail = true := by
  rw [bybitNormalize] at h
  by_cases hc : endsWith s usdtTail = true
  · rw [if_pos hc] at h
    cases h
    exact endsWith_append _ _
  · rw [if_neg hc] at h
    cases h

theorem bitgetNormalize_canonTail {s key : Str} (h : bitgetNormalize s = some key) :
    endsWith key canonTail = true := by
  rw [bitgetNormalize] at h
  by_cases hc : endsWith s umcblTail = true
  · rw [if_pos hc] at h
    by_cases hc2 : endsWith (splitHead '_' s) usdtTail = true
    · rw [if_pos hc2] at h
      cases h
      exact endsWith_append _ _
    · rw [if_neg hc2] at h
      cases h
  · rw [if_neg hc] at h
    cases h

theorem bybitStep_good (uf : Bool) (spot : List Str) (acc : Snapshot) (item : BybitTicker)
    (h : ∀ q ∈ acc, q.2.symbol = q.1 ∧ endsWith q.1 canonTail = true) :
    ∀ q ∈ bybitStep uf spot acc item,
      q.2.symbol = q.1 ∧ endsWith q.1 canonTail = true := by
  unfold bybitStep
  cases hn : bybitNormalize item.symbol with
  | none => exact h
  | some key =>
    by_cases hc : (uf && !decide (key ∈ spot)) = true
    · simpa [hc] using h
    · simp only [hc, if_false, Bool.false_eq_true]
      intro q hq
      rcases mem_insertAL_cases hq with h1 | h1
      · subst h1
        exact ⟨rfl, bybitNormalize_canonTail hn⟩
      · exact h q h1

theorem bitgetStep_good (uf : Bool) (spot : List Str) (acc : Snapshot) (item : BitgetTicker)
    (h : ∀ q ∈ acc, q.2.symbol = q.1 ∧ endsWith q.1 canonTail = true) :
    ∀ q ∈ bitgetStep uf spot acc item,
      q.2.symbol = q.1 ∧ endsWith q.1 canonTail = true := by
  unfold bitgetStep
  cases hn : bitgetNormalize item.symbol with
  | none => exact h
  | some key =>
    by_cases hc : (uf && !decide (key ∈ spot)) = true
    · simpa [hc] using h
    · simp only [hc, if_false, Bool.false_eq_true]
      intro q hq
      rcases mem_insertAL_cases hq with h1 | h1
      · subst h1
        exact ⟨rfl, bitgetNormalize_canonTail hn⟩
      · exact h q h1

theorem binanceMarkStep_keys (md : List (Str × BinanceMark)) (item : BinanceMarkItem)
    (h : ∀ a ∈ keys md, endsWith a canonTail = true) :
    ∀ a ∈ keys (binanceMarkStep md item), endsWith a canonTail = true := by
  unfold binanceMarkStep
  by_cases hc : (item.s.isEmpty || !endsWith item.s usdtTail) = true
  · simpa [hc] using h
  · simp only [hc, if_false, Bool.false_eq_true]
    intro a ha
    rcases keys_insertAL_cases ha with h1 | h1
    · subst h1
      exact endsWith_append _ _
    · exact h a h1

theorem binanceRunMsgs_keys (msgs : List BinanceWsMsg) :
    ∀ a ∈ keys (binanceRunMsgs msgs).mark_data, endsWith a canonTail = true := by
  refine foldl_preserve binanceApplyMsg
    (fun st => ∀ a ∈ keys st.mark_data, endsWith a canonTail = true) ?_ msgs
    binanceInitState ?_
  · intro st msg hst
    cases msg with
    | markPrice data =>
      exact foldl_preserve binanceMarkStep
        (fun md => ∀ a ∈ keys md, endsWith a canonTail = true)
        (fun md item h => binanceMarkStep_keys md item h) data st.mark_data hst
    | ticker data => exact hst
    | other => exact hst
  · intro a ha
    cases ha

theorem binance_snapshot_good (st : BinanceState)
    (hkeys : ∀ a ∈ keys st.mark_data, endsWith a canonTail = true)
    (uf : Bool) (spot : List Str) :
    ∀ q ∈ (binance_get_snapshot st uf spot).2,
      q.2.symbol = q.1 ∧ endsWith q.1 canonTail = true := by
  refine foldl_preserve_mem (binanceSnapStep st uf spot)
    (fun snap => ∀ q ∈ snap, q.2.symbol = q.1 ∧ endsWith q.1 canonTail = true)
    st.mark_data ?_ [] ?_
  · intro snap p hp hgood
    unfold binanceSnapStep
    by_cases hc : (uf && !decide (p.1 ∈ spot)) = true
    · simpa [hc] using hgood
    · simp only [hc, if_false, Bool.false_eq_true]
      intro q hq
      rcases mem_insertAL_cases hq with h1 | h1
      · subst h1
        exact ⟨rfl, hkeys p.1 (mem_keys_of_mem hp)⟩
      · exact hgood q h1
  · intro q hq
    cases hq

theorem okxFundingStep_keys (fd : List (Str × OKXFunding)) (item : OKXFundingItem)
    (h : ∀ a ∈ keys fd, endsWith a canonTail = true) :
    ∀ a ∈ keys (okxFundingStep fd item), endsWith a canonTail = true := by
  unfold okxFundingStep
  intro a ha
  rcases keys_insertAL_cases ha with h1 | h1
  · subst h1
    exact endsWith_append _ _
  · exact h a h1

theorem okxRunMsgs_keys (msgs : List OKXWsMsg) :
    ∀ a ∈ keys (okxRunMsgs msgs).funding_data, endsWith a canonTail = true := by
  refine foldl_preserve okxApplyMsg
    (fun st => ∀ a ∈ keys st.funding_data, endsWith a canonTail = true) ?_ msgs
    okxInitState ?_
  · intro st msg hst
    cases msg with
    | fundingRate data =>
      exact foldl_preserve okxFundingStep
        (fun fd => ∀ a ∈ keys fd, endsWith a canonTail = true)
        (fun fd item h => okxFundingStep_keys fd item h) data st.funding_data hst
    | tickers data => exact hst
    | ping => exact hst
    | other => exact hst
  · intro a ha
    cases ha

theorem okx_snapshot_good (st : OKXState)
    (hkeys : ∀ a ∈ keys st.funding_data, endsWith a canonTail = true)
    (uf : Bool) (spot : List Str) :
    ∀ q ∈ (okx_get_snapshot st uf spot).2,
      q.2.symbol = q.1 ∧ endsWith q.1 canonTail = true := by
  refine foldl_preserve_mem (okxSnapStep st uf spot)
    (fun snap => ∀ q ∈ snap, q.2.symbol = q.1 ∧ endsWith q.1 canonTail = true)
    st.funding_data ?_ [] ?_
  · intro snap p hp hgood
    unfold okxSnapStep
    by_cases hc : (uf && !decide (p.1 ∈ spot)) = true
    · simpa [hc] using hgood
    · simp only [hc, if_false, Bool.false_eq_true]
      intro q hq
      rcases mem_insertAL_cases hq with h1 | h1
      · subst h1
        exact ⟨rfl, hkeys p.1 (mem_keys_of_mem hp)⟩
      · exact hgood q h1
  · intro q hq
    cases hq

/-- C10: in every snapshot a collector returns, each entry's symbol field
equals its dictionary key and the key has the canonical form ending in
/USDT:USDT (monitor snapshots are taken over any state reachable from
process start by a sequence of stream messages). -/
theorem snapshot_entry_invariant :
    (∀ (uf : Bool) (spot : List Str) (resp : HttpResult BybitTickersResp)
        (q : Str × FundingEntry), q ∈ get_bybit_funding_rates uf spot resp →
        q.2.symbol = q.1 ∧ endsWith q.1 canonTail = true) ∧
    (∀ (uf : Bool) (spot : List Str) (resp : HttpResult BitgetTickersResp)
        (q : Str × FundingEntry), q ∈ get_bitget_funding_rates uf spot resp →
        q.2.symbol = q.1 ∧ endsWith q.1 canonTail = true) ∧
    (∀ (msgs : List BinanceWsMsg) (uf : Bool) (spot : List Str) (q : Str × FundingEntry),
        q ∈ (binance_get_snapshot (binanceRunMsgs msgs) uf spot).2 →
        q.2.symbol = q.1 ∧ endsWith q.1 canonTail = true) ∧
    (∀ (msgs : List OKXWsMsg) (uf : Bool) (spot : List Str) (q : Str × FundingEntry),
        q ∈ (okx_get_snapshot (okxRunMsgs msgs) uf spot).2 →
        q.2.symbol = q.1 ∧ endsWith q.1 canonTail = true) := by
  refine ⟨?_, ?_, ?_, ?_⟩
  · intro uf spot resp q hq
    cases resp with
    | netError => cases hq
    | ok status body =>
      by_cases hs : status = 200
      · by_cases hr : body.retCode = 0
        · rw [get_bybit_funding_rates] at hq
          simp only [hs, hr, if_true] at hq
          exact foldl_preserve _
            (fun acc => ∀ q ∈ acc, q.2.symbol = q.1 ∧ endsWith q.1 canonTail = true)
            (fun acc item h => bybitStep_good uf spot acc item h)
            body.list [] (fun q hq => by cases hq) q hq
        · rw [get_bybit_funding_rates] at hq
          simp only [hs, hr, if_true, if_false] at hq
          cases hq
      · rw [get_bybit_funding_rates, if_neg hs] at hq
        cases hq
  · intro uf spot resp q hq
    cases resp with
    | netError => cases hq
    | ok status body =>
      by_cases hs : status = 200
      · by_cases hr : body.code = "00000".toList
        · rw [get_bitget_funding_rates] at hq
          simp only [hs, hr, if_true] at hq
          exact foldl_preserve _
            (fun acc => ∀ q ∈ acc, q.2.symbol = q.1 ∧ endsWith q.1 canonTail = true)
            (fun acc item h => bitgetStep_good uf spot acc item h)
            body.data [] (fun q hq => by cases hq) q hq
        · rw [get_bitget_funding_rates, if_pos hs, if_neg hr] at hq
          cases hq
      · rw [get_bitget_funding_rates, if_neg hs] at hq
        cases hq
  · intro msgs uf spot q hq
    exact binance_snapshot_good (binanceRunMsgs msgs) (binanceRunMsgs_keys msgs) uf spot q hq
  · intro msgs uf spot q hq
    exact okx_snapshot_good (okxRunMsgs msgs) (okxRunMsgs_keys msgs) uf spot q hq

theorem snapshot_entry_invariant_witness :
    ((⟨canonKey "BTC".toList, 0, 0, 0, 4⟩ : FundingEntry).symbol = canonKey "BTC".toList ∧
      endsWith (canonKey "BTC".toList) canonTail = true) ∧
    ((⟨canonKey "ETH".toList, 0, 0, 0, 0⟩ : FundingEntry).symbol = canonKey "ETH".toList ∧
      endsWith (canonKey "ETH".toList) canonTail = true) ∧
    ((⟨canonKey "SOL".toList, 0, 0, 0, 7⟩ : FundingEntry).symbol = canonKey "SOL".toList ∧
      endsWith (canonKey "SOL".toList) canonTail = true) ∧
    ((⟨canonKey "XRP".toList, 0, 0, 0, 9⟩ : FundingEntry).symbol = canonKey "XRP".toList ∧
      endsWith (canonKey "XRP".toList) canonTail = true) := by
  refine ⟨?_, ?_, ?_, ?_⟩
  · exact snapshot_entry_invariant.1 false []
      (.ok 200 ⟨0, [⟨"BTCUSDT".toList, 0, 0, 0, 4⟩]⟩)
      (canonKey "BTC".toList, ⟨canonKey "BTC".toList, 0, 0, 0, 4⟩)
      (by norm_num +decide [get_bybit_funding_rates, bybitStep, bybitNormalize, insertAL])
  · exact snapshot_entry_invariant.2.1 false []
      (.ok 200 ⟨"00000".toList, [⟨"ETHUSDT_UMCBL".toList, 0, 0, 0⟩]⟩)
      (canonKey "ETH".toList, ⟨canonKey "ETH".toList, 0, 0, 0, 0⟩)
      (by norm_num +decide [get_bitget_funding_rates, bitgetStep, bitgetNormalize, insertAL])
  · exact snapshot_entry_invariant.2.2.1
      [.markPrice [⟨"SOLUSDT".toList, 0, 0, 7⟩]] false []
      (canonKey "SOL".toList, ⟨canonKey "SOL".toList, 0, 0, 0, 7⟩)
      (by norm_num +decide [binance_get_snapshot, binanceRunMsgs, binanceApplyMsg,
        binanceMarkStep, binanceSnapStep, binanceInitState, insertAL])
  · exact snapshot_entry_invariant.2.2.2
      [.fundingRate [⟨"XRP-USDT-SWAP".toList, 0, 9⟩]] false []
      (canonKey "XRP".toList, ⟨canonKey "XRP".toList, 0, 0, 0, 9⟩)
      (by norm_num +decide [okx_get_snapshot, okxRunMsgs, okxApplyMsg,
        okxFundingStep, okxSnapStep, okxInitState, insertAL])
